import Mathlib

/-!
# Verification of the embeddenator-contract-bench dataset subsystem

Shallow embedding of `src/dataset.rs`, `src/harness.rs` and the recall
computation of `src/benches/retrieval.rs`, together with proofs of the
spec's testable properties.

Modelling conventions:
* machine integers (`u32`, `u64`, `usize` on a 64-bit target) are `Nat`,
  with `% 2^w` applied exactly where the Rust code wraps or casts;
* bytes are `Nat` values below 256, a file is a `List Nat`;
* fallible operations return `Option`/`Except`; a Rust panic
  (out-of-range slice) is modelled as `Option.none`;
* the external `rand`/`rand_chacha` crates are modelled by a
  deterministic stream keyed by the 64-bit seed (`rngStep`) driving a
  Fisher-Yates style permutation draw (`shuffle`): like `ChaCha8Rng`
  seeded via `seed_from_u64` plus `SliceRandom::shuffle`, the result is
  a pure function of the seed that permutes its input list.  No claim
  depends on the particular pseudorandom values, only on determinism
  and on the permutation property.
-/

/-- The sparse ternary vector type of the external engine: indices of the
`+1` coordinates and of the `-1` coordinates. -/
structure SparseVec where
  pos : List Nat
  neg : List Nat
deriving DecidableEq, Repr, Inhabited

/-- Dataset metadata from the header (`count`, `dimension`, `seed`, each a
`u64`). -/
structure DatasetMeta where
  count : Nat
  dimension : Nat
  seed : Nat
deriving DecidableEq, Repr, Inhabited

/-- Configuration for dataset generation (`count : u64`;
`dimension, sparsity : usize`; `seed : u64`). -/
structure GenerateConfig where
  count : Nat
  dimension : Nat
  seed : Nat
  sparsity : Nat
deriving DecidableEq, Repr, Inhabited

/-- The fixed odd 64-bit mixing constant `0x517cc1b727220a95` of
`per_vector_seed`. -/
def mixK : Nat := 0x517cc1b727220a95

/-- `per_vector_seed`: `master_seed.wrapping_add(index as u64).wrapping_mul(K)`. -/
def per_vector_seed (master_seed : Nat) (index : Nat) : Nat :=
  ((master_seed + index % 2 ^ 64) % 2 ^ 64) * mixK % 2 ^ 64

/-- Deterministic stand-in for the external `ChaCha8Rng` stream: one step
yields a pseudorandom 64-bit value and the next state (a 64-bit linear
congruential step; the claims depend only on determinism). -/
def rngStep (state : Nat) : Nat × Nat :=
  let s := (6364136223846793005 * state + 1442695040888963407) % 2 ^ 64
  (s, s)

/-- Fisher-Yates style permutation draw, modelling
`SliceRandom::shuffle` of the `rand` crate: repeatedly pick a
pseudorandom position of the remaining list and emit the element there.
`fuel` is the number of elements still to emit. -/
def shuffleGo : Nat → Nat → List Nat → List Nat
  | 0, _, _ => []
  | fuel + 1, rng, l =>
    if h : 0 < l.length then
      let step := rngStep rng
      let i := step.1 % l.length
      l.get ⟨i, Nat.mod_lt _ h⟩ :: shuffleGo fuel step.2 (l.eraseIdx i)
    else []

/-- `indices.shuffle(rng)`: a seed-determined permutation of the list. -/
def shuffle (rng : Nat) (l : List Nat) : List Nat :=
  shuffleGo l.length rng l

/-- `sort_unstable()` on a `Vec<usize>`: ascending order. -/
def sortAsc (l : List Nat) : List Nat :=
  List.insertionSort (· ≤ ·) l

/-- Rust slice indexing `l[a..b]`: panics (here `none`) unless
`a ≤ b ∧ b ≤ l.length`. -/
def sliceOpt (l : List Nat) (a b : Nat) : Option (List Nat) :=
  if a ≤ b ∧ b ≤ l.length then some ((l.drop a).take (b - a)) else none

/-- `generate_sparse_vec(rng, dimension, sparsity)`: shuffle
`[0, dimension)`, take the first `sparsity` entries as `pos` and the next
`sparsity` as `neg` (a panic of the two slice accesses is `none`), sort
each ascending. -/
def generate_sparse_vec (rngSeed dimension sparsity : Nat) : Option SparseVec :=
  let indices := shuffle rngSeed (List.range dimension)
  match sliceOpt indices 0 sparsity, sliceOpt indices sparsity (sparsity * 2) with
  | some p, some q => some ⟨sortAsc p, sortAsc q⟩
  | _, _ => none

/-- The vectors of indices `start, start+1, ..., start+n-1`, each generated
from its `per_vector_seed`-seeded RNG (the order-preserving parallel
`map`/`collect` of the source). -/
def genRange (seed dimension sparsity start n : Nat) : Option (List SparseVec) :=
  match n with
  | 0 => some []
  | n + 1 =>
    match generate_sparse_vec (per_vector_seed seed start) dimension sparsity,
        genRange seed dimension sparsity (start + 1) n with
    | some v, some rest => some (v :: rest)
    | _, _ => none

/-- `generate_dataset(config)`. -/
def generate_dataset (config : GenerateConfig) : Option (List SparseVec) :=
  genRange config.seed config.dimension config.sparsity 0 config.count

/-- The batched while-loop of `write_dataset_streaming`, as the list of
vectors it writes after the header: batches of `batch_size.max(1)`
indices, each batch generated in index order. -/
def streamVecs (seed dimension sparsity count batch_size start : Nat) :
    Option (List SparseVec) :=
  if h : start < count then
    let e := min (start + max batch_size 1) count
    match genRange seed dimension sparsity start (e - start),
        streamVecs seed dimension sparsity count batch_size e with
    | some batch, some rest => some (batch ++ rest)
    | _, _ => none
  else some []
termination_by count - start
decreasing_by
  have h1 : start + 1 ≤ min (start + max batch_size 1) count := by
    have : start + 1 ≤ start + max batch_size 1 := by
      have := Nat.le_max_right batch_size 1
      omega
    exact le_min this h
  omega

/-- Little-endian encoding of a value cast `as u32` (4 bytes). -/
def le32 (n : Nat) : List Nat :=
  [n % 256, n / 256 % 256, n / 65536 % 256, n / 16777216 % 256]

/-- Little-endian encoding of a value cast `as u64` (8 bytes). -/
def le64 (n : Nat) : List Nat :=
  [n % 256, n / 2 ^ 8 % 256, n / 2 ^ 16 % 256, n / 2 ^ 24 % 256,
   n / 2 ^ 32 % 256, n / 2 ^ 40 % 256, n / 2 ^ 48 % 256, n / 2 ^ 56 % 256]

/-- `u32::from_le_bytes` / `u64::from_le_bytes` on a byte list. -/
def fromLe (bs : List Nat) : Nat :=
  bs.foldr (fun b acc => b + 256 * acc) 0

/-- The magic bytes `b"EMBR_DST"`. -/
def MAGIC : List Nat := [69, 77, 66, 82, 95, 68, 83, 84]

/-- `FORMAT_VERSION = 1`. -/
def FORMAT_VERSION : Nat := 1

/-- `HEADER_SIZE = 8 + 4 + 8 + 8 + 8 + 32`. -/
def HEADER_SIZE : Nat := 8 + 4 + 8 + 8 + 8 + 32

/-- `write_header(writer, count, dimension, seed)`: magic, version `u32`,
`count : u64`, `dimension as u64`, `seed : u64`, 32 reserved zero bytes. -/
def write_header (count dimension seed : Nat) : List Nat :=
  MAGIC ++ le32 FORMAT_VERSION ++ le64 count ++ le64 dimension ++ le64 seed ++
    List.replicate 32 0

/-- `write_vector(writer, vec)`: `pos_len : u32`, each pos index `as u32`,
`neg_len : u32`, each neg index `as u32`. -/
def write_vector (v : SparseVec) : List Nat :=
  le32 v.pos.length ++ (v.pos.map le32).flatten ++
    le32 v.neg.length ++ (v.neg.map le32).flatten

/-- `write_dataset(path, vectors, config)`: header with
`count = vectors.len()`, then each vector in order. -/
def write_dataset (vectors : List SparseVec) (config : GenerateConfig) : List Nat :=
  write_header vectors.length config.dimension config.seed ++
    (vectors.map write_vector).flatten

/-- `write_dataset_streaming(path, config, batch_size)`: header with
`count = config.count`, then the batched generation loop; `none` models a
generation panic aborting the write. -/
def write_dataset_streaming (config : GenerateConfig) (batch_size : Nat) :
    Option (List Nat) :=
  (streamVecs config.seed config.dimension config.sparsity config.count
      batch_size 0).map
    (fun vs =>
      write_header config.count config.dimension config.seed ++
        (vs.map write_vector).flatten)

/-- The reader error taxonomy: `InvalidData` format errors and
`UnexpectedEof` from a failed `read_exact`. -/
inductive IoErr where
  | invalidData : IoErr
  | unexpectedEof : IoErr
deriving DecidableEq, Repr

/-- `read_exact` on a byte stream: yields exactly `n` bytes and the rest of
the stream, or fails with an end-of-file error. -/
def readExact (n : Nat) (s : List Nat) : Except IoErr (List Nat × List Nat) :=
  if n ≤ s.length then .ok (s.take n, s.drop n) else .error .unexpectedEof

/-- The loop reading `n` consecutive `u32` little-endian indices. -/
def readIdxList (n : Nat) (s : List Nat) : Except IoErr (List Nat × List Nat) :=
  match n with
  | 0 => .ok ([], s)
  | n + 1 =>
    match readExact 4 s with
    | .error e => .error e
    | .ok (b, s1) =>
      match readIdxList n s1 with
      | .error e => .error e
      | .ok (rest, s2) => .ok (fromLe b :: rest, s2)

/-- Decoding of one vector record: `pos_len`, pos indices, `neg_len`, neg
indices (shared by `load_dataset` and `DatasetReader::next_vector`). -/
def readVec (s : List Nat) : Except IoErr (SparseVec × List Nat) :=
  match readExact 4 s with
  | .error e => .error e
  | .ok (pb, s1) =>
    match readIdxList (fromLe pb) s1 with
    | .error e => .error e
    | .ok (pos, s2) =>
      match readExact 4 s2 with
      | .error e => .error e
      | .ok (nb, s3) =>
        match readIdxList (fromLe nb) s3 with
        | .error e => .error e
        | .ok (neg, s4) => .ok (⟨pos, neg⟩, s4)

/-- The loop of `load_dataset` reading `count` vector records. -/
def readVecs (n : Nat) (s : List Nat) : Except IoErr (List SparseVec × List Nat) :=
  match n with
  | 0 => .ok ([], s)
  | n + 1 =>
    match readVec s with
    | .error e => .error e
    | .ok (v, s1) =>
      match readVecs n s1 with
      | .error e => .error e
      | .ok (vs, s2) => .ok (v :: vs, s2)

/-- Header parsing shared by `load_dataset` and `DatasetReader::open`:
validate magic and version, then read `count`, `dimension`, `seed` and skip
the 32 reserved bytes; returns the metadata and the remaining stream. -/
def readHeader (s : List Nat) : Except IoErr (DatasetMeta × List Nat) :=
  match readExact 8 s with
  | .error e => .error e
  | .ok (magic, s1) =>
    if magic ≠ MAGIC then .error .invalidData
    else
      match readExact 4 s1 with
      | .error e => .error e
      | .ok (vb, s2) =>
        if fromLe vb ≠ FORMAT_VERSION then .error .invalidData
        else
          match readExact 8 s2 with
          | .error e => .error e
          | .ok (cb, s3) =>
            match readExact 8 s3 with
            | .error e => .error e
            | .ok (db, s4) =>
              match readExact 8 s4 with
              | .error e => .error e
              | .ok (sb, s5) =>
                match readExact 32 s5 with
                | .error e => .error e
                | .ok (_, s6) =>
                  .ok (⟨fromLe cb, fromLe db, fromLe sb⟩, s6)

/-- `load_dataset(path)`: parse the header, then read `count` vectors. -/
def load_dataset (s : List Nat) : Except IoErr (DatasetMeta × List SparseVec) :=
  match readHeader s with
  | .error e => .error e
  | .ok (meta, body) =>
    match readVecs meta.count body with
    | .error e => .error e
    | .ok (vs, _) => .ok (meta, vs)

/-- `read_dataset_meta(path)`: magic, version, `count`, `dimension`, `seed`
(the reserved bytes are not read). -/
def read_dataset_meta (s : List Nat) : Except IoErr DatasetMeta :=
  match readExact 8 s with
  | .error e => .error e
  | .ok (magic, s1) =>
    if magic ≠ MAGIC then .error .invalidData
    else
      match readExact 4 s1 with
      | .error e => .error e
      | .ok (vb, s2) =>
        if fromLe vb ≠ FORMAT_VERSION then .error .invalidData
        else
          match readExact 8 s2 with
          | .error e => .error e
          | .ok (cb, s3) =>
            match readExact 8 s3 with
            | .error e => .error e
            | .ok (db, s4) =>
              match readExact 8 s4 with
              | .error e => .error e
              | .ok (sb, _) => .ok ⟨fromLe cb, fromLe db, fromLe sb⟩

/-- The streaming reader: metadata, the whole file, the byte offset of the
underlying `BufReader` cursor, and `current_index`. -/
structure DatasetReader where
  meta : DatasetMeta
  stream : List Nat
  offset : Nat
  current_index : Nat
deriving DecidableEq, Repr

/-- `DatasetReader::open(path)`: validate the header; the cursor is then
positioned at `HEADER_SIZE`, `current_index = 0`. -/
def DatasetReader.open (s : List Nat) : Except IoErr DatasetReader :=
  match readHeader s with
  | .error e => .error e
  | .ok (meta, _) => .ok ⟨meta, s, HEADER_SIZE, 0⟩

/-- `DatasetReader::next_vector()`: `None` once `current_index` reaches
`meta.count`, otherwise decode one record at the cursor. -/
def DatasetReader.next_vector (r : DatasetReader) :
    Except IoErr (Option SparseVec × DatasetReader) :=
  if r.current_index ≥ r.meta.count then .ok (none, r)
  else
    match readVec (r.stream.drop r.offset) with
    | .error e => .error e
    | .ok (v, rest) =>
      .ok (some v,
        ⟨r.meta, r.stream, r.stream.length - rest.length, r.current_index + 1⟩)

/-- `DatasetReader::reset()`: seek to `HEADER_SIZE`, `current_index = 0`. -/
def DatasetReader.reset (r : DatasetReader) : DatasetReader :=
  ⟨r.meta, r.stream, HEADER_SIZE, 0⟩

/-- Repeatedly call `next_vector` until it yields `None` (the `Iterator`
loop), with explicit fuel. -/
def readAllGo (fuel : Nat) (r : DatasetReader) :
    Except IoErr (List SparseVec × DatasetReader) :=
  match fuel with
  | 0 => .ok ([], r)
  | fuel + 1 =>
    match r.next_vector with
    | .error e => .error e
    | .ok (none, r1) => .ok ([], r1)
    | .ok (some v, r1) =>
      match readAllGo fuel r1 with
      | .error e => .error e
      | .ok (vs, r2) => .ok (v :: vs, r2)

/-- One full pass over a reader: exactly the vectors from `current_index`
to `meta.count`. -/
def readAll (r : DatasetReader) : Except IoErr (List SparseVec × DatasetReader) :=
  readAllGo (r.meta.count - r.current_index) r

/-- The timing result of one measured benchmark invocation. -/
structure Measured where
  iters : Nat
  warmup_iters : Nat
  total_ns : Nat
  ns_per_iter : Float
deriving Repr

/-- `n` successive invocations of the benchmarked closure, threading its
mutable-capture state and discarding its return value (`black_box(f())`). -/
def runClosure {σ α : Type} (f : σ → σ × α) : Nat → σ → σ
  | 0, s => s
  | n + 1, s => runClosure f n (f s).1

/-- `measure_fn(iters, warmup_iters, f)`: run `f` `warmup_iters` times,
then `iters` timed times; the wall-clock elapsed nanoseconds measured for
the timed loop enter as the external parameter `elapsed_ns`.  Returns the
`Measured` record and the closure's final state. -/
def measure_fn {σ α : Type} (iters warmup_iters : Nat) (f : σ → σ × α)
    (s : σ) (elapsed_ns : Nat) : Measured × σ :=
  let s1 := runClosure f warmup_iters s
  let s2 := runClosure f iters s1
  (⟨iters, warmup_iters, elapsed_ns,
    Float.ofNat elapsed_ns / Float.ofNat (max iters 1)⟩, s2)

/-- Per-query hit count of the retrieval benchmark:
`approx_ids.intersection(&exact_ids).count()`. -/
def recallHits (approx_ids exact_ids : Finset Nat) : Nat :=
  (approx_ids ∩ exact_ids).card

/-- Total hits accumulated over the query loop. -/
def totalRecallHits (queryResults : List (Finset Nat × Finset Nat)) : Nat :=
  (queryResults.map (fun p => recallHits p.1 p.2)).sum

/-- Aggregate `recall_at_k` of the retrieval benchmark:
`(total_recall_hits as f64) / ((queries * k) as f64)`, with the `f64`
division modelled as exact rational division. -/
def recall_at_k (queryResults : List (Finset Nat × Finset Nat)) (k : Nat) : ℚ :=
  (totalRecallHits queryResults : ℚ) / ((queryResults.length * k : Nat) : ℚ)

/-- A vector representable exactly in the on-disk format: lengths and
indices fit in a `u32`. -/
def vecInRange (v : SparseVec) : Prop :=
  v.pos.length < 2 ^ 32 ∧ v.neg.length < 2 ^ 32 ∧
    (∀ i ∈ v.pos, i < 2 ^ 32) ∧ ∀ i ∈ v.neg, i < 2 ^ 32

instance (v : SparseVec) : Decidable (vecInRange v) := by
  unfold vecInRange; infer_instance

/-- The sortedness/disjointness invariant of the spec: `pos` and `neg`
strictly ascending (hence duplicate-free) and disjoint. -/
def vecInvariant (v : SparseVec) : Prop :=
  v.pos.Sorted (· < ·) ∧ v.neg.Sorted (· < ·) ∧ ∀ x ∈ v.pos, x ∉ v.neg

instance (v : SparseVec) : Decidable (vecInvariant v) := by
  unfold vecInvariant; infer_instance

/-! ## Supporting lemmas -/

theorem fromLe_le32 (n : Nat) : fromLe (le32 n) = n % 2 ^ 32 := by
  simp only [le32, fromLe, List.foldr]
  omega

theorem fromLe_le64 (n : Nat) : fromLe (le64 n) = n % 2 ^ 64 := by
  simp only [le64, fromLe, List.foldr]
  omega

theorem le32_length (n : Nat) : (le32 n).length = 4 := rfl

theorem le64_length (n : Nat) : (le64 n).length = 8 := rfl

theorem readExact_append (n : Nat) (bs rest : List Nat) (h : bs.length = n) :
    readExact n (bs ++ rest) = .ok (bs, rest) := by
  subst h
  simp [readExact, List.take_append, List.drop_append]

theorem runClosure_add {σ α : Type} (f : σ → σ × α) (a b : Nat) (s : σ) :
    runClosure f b (runClosure f a s) = runClosure f (a + b) s := by
  induction a generalizing s with
  | zero => simp [runClosure]
  | succ a ih =>
    show runClosure f b (runClosure f a (f s).1) = runClosure f (a + 1 + b) s
    rw [ih]
    have : a + 1 + b = (a + b) + 1 := by omega
    rw [this]
    rfl

/-! ## Claim C6: measurement-harness contract -/

/-- C6: `measure_fn` invokes the operation exactly `warmup_iters + iters`
times (warmup first), and the returned `Measured` reports the given `iters`
and `warmup_iters` unchanged, the elapsed `total_ns`, and
`ns_per_iter = total_ns / max(iters, 1)` under floating-point division,
with no other smoothing or rounding. -/
theorem harness_contract {σ α : Type} (iters warmup_iters : Nat) (f : σ → σ × α)
    (s : σ) (elapsed_ns : Nat) :
    (measure_fn iters warmup_iters f s elapsed_ns).2 =
      runClosure f (warmup_iters + iters) s ∧
    (measure_fn iters warmup_iters f s elapsed_ns).1.iters = iters ∧
    (measure_fn iters warmup_iters f s elapsed_ns).1.warmup_iters = warmup_iters ∧
    (measure_fn iters warmup_iters f s elapsed_ns).1.total_ns = elapsed_ns ∧
    (measure_fn iters warmup_iters f s elapsed_ns).1.ns_per_iter =
      Float.ofNat elapsed_ns / Float.ofNat (max iters 1) := by
  refine ⟨?_, rfl, rfl, rfl, rfl⟩
  simp [measure_fn, runClosure_add]

/-! ## Claim C5: format rejection -/

/-- C5: a file whose first 8 bytes differ from the magic `"EMBR_DST"`, or
whose version field differs from 1, fails to load (`load_dataset`) and to
open (`DatasetReader::open`) with an `InvalidData` format error, returning
no vectors: parsing stops at the first failed check. -/
theorem format_rejection (bytes : List Nat) :
    (8 ≤ bytes.length → bytes.take 8 ≠ MAGIC →
      load_dataset bytes = .error .invalidData ∧
      DatasetReader.open bytes = .error .invalidData) ∧
    (12 ≤ bytes.length → bytes.take 8 = MAGIC →
      fromLe ((bytes.drop 8).take 4) ≠ FORMAT_VERSION →
      load_dataset bytes = .error .invalidData ∧
      DatasetReader.open bytes = .error .invalidData) := by
  constructor
  · intro h8 hm
    have hre : readExact 8 bytes = .ok (bytes.take 8, bytes.drop 8) := by
      simp [readExact, h8]
    constructor
    · simp [load_dataset, readHeader, hre, hm]
    · simp [DatasetReader.open, readHeader, hre, hm]
  · intro h12 hm hv
    have hre : readExact 8 bytes = .ok (bytes.take 8, bytes.drop 8) := by
      simp [readExact]; omega
    have hre4 : readExact 4 (bytes.drop 8) =
        .ok ((bytes.drop 8).take 4, (bytes.drop 8).drop 4) := by
      simp [readExact]; omega
    constructor
    · simp [load_dataset, readHeader, hre, hm, hre4, hv]
    · simp [DatasetReader.open, readHeader, hre, hm, hre4, hv]

/-- Witness for C5: a 12-byte zero file (wrong magic) and a file with
correct magic but version 2 are both rejected with `InvalidData`. -/
theorem format_rejection_witness :
    load_dataset (List.replicate 12 0) = .error .invalidData ∧
    DatasetReader.open (MAGIC ++ le32 2) = .error .invalidData :=
  ⟨((format_rejection (List.replicate 12 0)).1 (by decide) (by decide)).1,
   ((format_rejection (MAGIC ++ le32 2)).2 (by decide) (by decide) (by decide)).2⟩

theorem readHeader_write (c d s : Nat) (rest : List Nat) :
    readHeader (write_header c d s ++ rest) =
      .ok (⟨c % 2 ^ 64, d % 2 ^ 64, s % 2 ^ 64⟩, rest) := by
  have e : write_header c d s ++ rest =
      MAGIC ++ (le32 FORMAT_VERSION ++ (le64 c ++ (le64 d ++ (le64 s ++
        (List.replicate 32 0 ++ rest))))) := by
    simp [write_header, List.append_assoc]
  rw [readHeader, e]
  rw [readExact_append 8 MAGIC _ rfl]
  simp only [ne_eq, not_true_eq_false, if_false, reduceIte]
  rw [readExact_append 4 (le32 FORMAT_VERSION) _ rfl]
  simp only [fromLe_le32]
  norm_num [FORMAT_VERSION]
  simp only [readExact_append 8 (le64 c) _ rfl, readExact_append 8 (le64 d) _ rfl,
    readExact_append 8 (le64 s) _ rfl,
    readExact_append 32 (List.replicate 32 0) _ (by simp), fromLe_le64]
  norm_num

theorem readIdxList_encode (idxs : List Nat) (rest : List Nat) :
    readIdxList idxs.length ((idxs.map le32).flatten ++ rest) =
      .ok (idxs.map (· % 2 ^ 32), rest) := by
  induction idxs generalizing rest with
  | nil => simp [readIdxList]
  | cons i is ih =>
    show readIdxList (is.length + 1) (le32 i ++ ((is.map le32).flatten ++ rest)) = _
    rw [readIdxList, readExact_append 4 (le32 i) _ rfl]
    simp [ih, fromLe_le32]

theorem readVec_encode (v : SparseVec) (rest : List Nat) (h : vecInRange v) :
    readVec (write_vector v ++ rest) = .ok (v, rest) := by
  obtain ⟨hp, hn, hpi, hni⟩ := h
  have e : write_vector v ++ rest =
      le32 v.pos.length ++ ((v.pos.map le32).flatten ++ (le32 v.neg.length ++
        ((v.neg.map le32).flatten ++ rest))) := by
    simp [write_vector, List.append_assoc]
  have hposmap : v.pos.map (· % 2 ^ 32) = v.pos := by
    conv_rhs => rw [← List.map_id v.pos]
    exact List.map_congr_left fun i hi => Nat.mod_eq_of_lt (hpi i hi)
  have hnegmap : v.neg.map (· % 2 ^ 32) = v.neg := by
    conv_rhs => rw [← List.map_id v.neg]
    exact List.map_congr_left fun i hi => Nat.mod_eq_of_lt (hni i hi)
  rw [readVec, e, readExact_append 4 (le32 v.pos.length) _ rfl]
  simp only [fromLe_le32, Nat.mod_eq_of_lt hp, readIdxList_encode, hposmap]
  rw [readExact_append 4 (le32 v.neg.length) _ rfl]
  simp only [fromLe_le32, Nat.mod_eq_of_lt hn, readIdxList_encode, hnegmap]

theorem readVecs_encode (vs : List SparseVec) (rest : List Nat)
    (h : ∀ v ∈ vs, vecInRange v) :
    readVecs vs.length ((vs.map write_vector).flatten ++ rest) = .ok (vs, rest) := by
  induction vs generalizing rest with
  | nil => simp [readVecs]
  | cons v vs ih =>
    have e : (List.map write_vector (v :: vs)).flatten ++ rest =
        write_vector v ++ ((vs.map write_vector).flatten ++ rest) := by simp
    rw [List.length_cons, e, readVecs, readVec_encode v _ (h v (by simp))]
    simp [ih _ fun u hu => h u (by simp [hu])]

theorem load_write_roundtrip (vs : List SparseVec) (cfg : GenerateConfig)
    (hr : ∀ v ∈ vs, vecInRange v) (hc : vs.length < 2 ^ 64) :
    load_dataset (write_dataset vs cfg) =
      .ok (⟨vs.length, cfg.dimension % 2 ^ 64, cfg.seed % 2 ^ 64⟩, vs) := by
  have hb := readVecs_encode vs [] hr
  rw [List.append_nil] at hb
  rw [load_dataset, write_dataset, readHeader_write, Nat.mod_eq_of_lt hc]
  simp only [hb]

theorem open_write (vs : List SparseVec) (cfg : GenerateConfig) :
    DatasetReader.open (write_dataset vs cfg) =
      .ok ⟨⟨vs.length % 2 ^ 64, cfg.dimension % 2 ^ 64, cfg.seed % 2 ^ 64⟩,
        write_dataset vs cfg, HEADER_SIZE, 0⟩ := by
  rw [DatasetReader.open, write_dataset, readHeader_write]

theorem readAllGo_encode (suffix : List SparseVec) (r : DatasetReader)
    (hs : r.stream.drop r.offset = (suffix.map write_vector).flatten)
    (hoff : r.offset ≤ r.stream.length)
    (hidx : r.current_index + suffix.length = r.meta.count)
    (hr : ∀ v ∈ suffix, vecInRange v) :
    ∃ r1, readAllGo suffix.length r = .ok (suffix, r1) ∧
      r1.meta = r.meta ∧ r1.stream = r.stream := by
  induction suffix generalizing r with
  | nil => exact ⟨r, rfl, rfl, rfl⟩
  | cons v suffix ih =>
    have e : (List.map write_vector (v :: suffix)).flatten =
        write_vector v ++ (suffix.map write_vector).flatten := by simp
    rw [e] at hs
    have hlt : r.current_index < r.meta.count := by
      simp only [List.length_cons] at hidx; omega
    have hrv : readVec (r.stream.drop r.offset) =
        .ok (v, (suffix.map write_vector).flatten) := by
      rw [hs, readVec_encode v _ (hr v (by simp))]
    have hnext : r.next_vector =
        .ok (some v, ⟨r.meta, r.stream,
          r.stream.length - ((suffix.map write_vector).flatten).length,
          r.current_index + 1⟩) := by
      rw [DatasetReader.next_vector, if_neg (by omega), hrv]
    have hlen : r.stream.length - r.offset =
        (write_vector v).length + ((suffix.map write_vector).flatten).length := by
      have h2 := congrArg List.length hs
      simp only [List.length_drop, List.length_append] at h2
      omega
    have hoff1 :
        r.stream.length - ((suffix.map write_vector).flatten).length =
          r.offset + (write_vector v).length := by omega
    rw [hoff1] at hnext
    have hdrop1 : r.stream.drop (r.offset + (write_vector v).length) =
        (suffix.map write_vector).flatten := by
      rw [← List.drop_drop, hs, List.drop_left]
    obtain ⟨r2, hgo, hm2, hs2⟩ := ih
      ⟨r.meta, r.stream, r.offset + (write_vector v).length, r.current_index + 1⟩
      hdrop1 (by simp only []; omega)
      (by simp only [List.length_cons] at hidx ⊢; omega)
      (fun u hu => hr u (by simp [hu]))
    refine ⟨r2, ?_, hm2, hs2⟩
    rw [List.length_cons, readAllGo, hnext]
    simp [hgo]

theorem write_header_length (c d s : Nat) : (write_header c d s).length = HEADER_SIZE := by
  simp [write_header, MAGIC, le32, le64, HEADER_SIZE]

theorem write_dataset_drop_header (vs : List SparseVec) (cfg : GenerateConfig) :
    (write_dataset vs cfg).drop HEADER_SIZE = (vs.map write_vector).flatten := by
  rw [write_dataset, ← write_header_length vs.length cfg.dimension cfg.seed,
    List.drop_left]

theorem header_le_length (vs : List SparseVec) (cfg : GenerateConfig) :
    HEADER_SIZE ≤ (write_dataset vs cfg).length := by
  rw [write_dataset, List.length_append, write_header_length]
  omega

theorem readAll_write (vs : List SparseVec) (cfg : GenerateConfig)
    (hr : ∀ v ∈ vs, vecInRange v) :
    ∃ r1, readAll ⟨⟨vs.length, cfg.dimension % 2 ^ 64, cfg.seed % 2 ^ 64⟩,
        write_dataset vs cfg, HEADER_SIZE, 0⟩ = .ok (vs, r1) := by
  obtain ⟨r1, hgo, -, -⟩ := readAllGo_encode vs
    ⟨⟨vs.length, cfg.dimension % 2 ^ 64, cfg.seed % 2 ^ 64⟩,
      write_dataset vs cfg, HEADER_SIZE, 0⟩
    (write_dataset_drop_header vs cfg) (header_le_length vs cfg) (by simp) hr
  exact ⟨r1, by simpa [readAll] using hgo⟩

/-! ## Claim C2: round-trip -/

/-- C2 counterexample: the round-trip is not exact for arbitrary vectors,
because indices are written `as u32`: a vector with pos index `2^32` is
read back with pos index `0`. -/
theorem round_trip_counterexample :
    ¬ ∀ (vs : List SparseVec) (cfg : GenerateConfig) (m : DatasetMeta)
        (out : List SparseVec),
        load_dataset (write_dataset vs cfg) = .ok (m, out) → out = vs := by
  intro h
  have h2 := h [⟨[2 ^ 32], []⟩] ⟨1, 10, 7, 1⟩ ⟨1, 10, 7⟩ [⟨[0], []⟩] (by rfl)
  have h3 : ([⟨[0], []⟩] : List SparseVec) ≠ [⟨[2 ^ 32], []⟩] := by decide
  exact h3 h2

/-- C2 (amended): for every list of vectors whose `pos`/`neg` lengths and
indices fit in `u32`, with fewer than `2^64` vectors and `u64`-range
`dimension` and `seed`, writing with `write_dataset` and reading back with
`load_dataset` (or sequentially with `DatasetReader::next_vector`)
reproduces the exact `pos`/`neg` sets of all vectors and the
`DatasetMeta` `(count = N, dimension, seed)` of the file. -/
theorem round_trip (vs : List SparseVec) (cfg : GenerateConfig)
    (hr : ∀ v ∈ vs, vecInRange v) (hc : vs.length < 2 ^ 64)
    (hd : cfg.dimension < 2 ^ 64) (hs : cfg.seed < 2 ^ 64) :
    load_dataset (write_dataset vs cfg) =
      .ok (⟨vs.length, cfg.dimension, cfg.seed⟩, vs) ∧
    ∃ r1, DatasetReader.open (write_dataset vs cfg) =
        .ok ⟨⟨vs.length, cfg.dimension, cfg.seed⟩,
          write_dataset vs cfg, HEADER_SIZE, 0⟩ ∧
      readAll ⟨⟨vs.length, cfg.dimension, cfg.seed⟩,
          write_dataset vs cfg, HEADER_SIZE, 0⟩ = .ok (vs, r1) := by
  have ho := open_write vs cfg
  rw [Nat.mod_eq_of_lt hc, Nat.mod_eq_of_lt hd, Nat.mod_eq_of_lt hs] at ho
  obtain ⟨r1, hra⟩ := readAll_write vs cfg hr
  rw [Nat.mod_eq_of_lt hd, Nat.mod_eq_of_lt hs] at hra
  have hl := load_write_roundtrip vs cfg hr hc
  rw [Nat.mod_eq_of_lt hd, Nat.mod_eq_of_lt hs] at hl
  exact ⟨hl, r1, ho, hra⟩

/-- Witness for C2 at two concrete vectors and a concrete config. -/
theorem round_trip_witness :
    load_dataset (write_dataset [⟨[1, 3], [0]⟩, ⟨[], [2]⟩] ⟨2, 10, 9, 1⟩) =
      .ok (⟨2, 10, 9⟩, [⟨[1, 3], [0]⟩, ⟨[], [2]⟩]) ∧
    ∃ r1, DatasetReader.open (write_dataset [⟨[1, 3], [0]⟩, ⟨[], [2]⟩] ⟨2, 10, 9, 1⟩) =
        .ok ⟨⟨2, 10, 9⟩, write_dataset [⟨[1, 3], [0]⟩, ⟨[], [2]⟩] ⟨2, 10, 9, 1⟩,
          HEADER_SIZE, 0⟩ ∧
      readAll ⟨⟨2, 10, 9⟩, write_dataset [⟨[1, 3], [0]⟩, ⟨[], [2]⟩] ⟨2, 10, 9, 1⟩,
          HEADER_SIZE, 0⟩ = .ok ([⟨[1, 3], [0]⟩, ⟨[], [2]⟩], r1) :=
  round_trip [⟨[1, 3], [0]⟩, ⟨[], [2]⟩] ⟨2, 10, 9, 1⟩
    (by decide) (by decide) (by decide) (by decide)

theorem read_meta_write (c d s : Nat) (rest : List Nat) :
    read_dataset_meta (write_header c d s ++ rest) =
      .ok ⟨c % 2 ^ 64, d % 2 ^ 64, s % 2 ^ 64⟩ := by
  have e : write_header c d s ++ rest =
      MAGIC ++ (le32 FORMAT_VERSION ++ (le64 c ++ (le64 d ++ (le64 s ++
        (List.replicate 32 0 ++ rest))))) := by
    simp [write_header, List.append_assoc]
  rw [read_dataset_meta, e]
  rw [readExact_append 8 MAGIC _ rfl]
  simp only [ne_eq, not_true_eq_false, if_false, reduceIte]
  rw [readExact_append 4 (le32 FORMAT_VERSION) _ rfl]
  simp only [fromLe_le32]
  norm_num [FORMAT_VERSION]
  simp only [readExact_append 8 (le64 c) _ rfl, readExact_append 8 (le64 d) _ rfl,
    readExact_append 8 (le64 s) _ rfl, fromLe_le64]
  norm_num

/-! ## Claim C10: header count comes from the vector slice -/

/-- C10: the header count written by `write_dataset` is the length of the
vector slice passed to it, not the `count` field of the `GenerateConfig`:
for every vector list and every config (`count` included), the file's
header holds `count = vs.length`, while `dimension` and `seed` come from
the config. -/
theorem header_count_is_slice_length (vs : List SparseVec) (cfg : GenerateConfig)
    (hc : vs.length < 2 ^ 64) (hd : cfg.dimension < 2 ^ 64)
    (hs : cfg.seed < 2 ^ 64) :
    read_dataset_meta (write_dataset vs cfg) =
      .ok ⟨vs.length, cfg.dimension, cfg.seed⟩ := by
  rw [write_dataset, read_meta_write, Nat.mod_eq_of_lt hc, Nat.mod_eq_of_lt hd,
    Nat.mod_eq_of_lt hs]

/-- Witness for C10: two vectors written under a config with `count = 5`
yield a header with `count = 2`. -/
theorem header_count_is_slice_length_witness :
    read_dataset_meta (write_dataset [⟨[0], [1]⟩, ⟨[2], [3]⟩] ⟨5, 10, 9, 1⟩) =
      .ok ⟨2, 10, 9⟩ :=
  header_count_is_slice_length [⟨[0], [1]⟩, ⟨[2], [3]⟩] ⟨5, 10, 9, 1⟩
    (by decide) (by decide) (by decide)

theorem genRange_length (seed d sp : Nat) :
    ∀ (n start : Nat) (vs : List SparseVec),
      genRange seed d sp start n = some vs → vs.length = n := by
  intro n
  induction n with
  | zero => intro start vs h; simp [genRange] at h; simp [← h]
  | succ n ih =>
    intro start vs h
    rw [genRange] at h
    cases h1 : generate_sparse_vec (per_vector_seed seed start) d sp with
    | none => rw [h1] at h; exact absurd h (by simp)
    | some v =>
      cases h2 : genRange seed d sp (start + 1) n with
      | none => rw [h1, h2] at h; exact absurd h (by simp)
      | some rest =>
        rw [h1, h2] at h
        simp only [Option.some.injEq] at h
        rw [← h, List.length_cons, ih (start + 1) rest h2]

theorem genRange_add (seed d sp : Nat) (a b : Nat) : ∀ start,
    genRange seed d sp start (a + b) =
      match genRange seed d sp start a, genRange seed d sp (start + a) b with
      | some xs, some ys => some (xs ++ ys)
      | _, _ => none := by
  induction a with
  | zero =>
    intro start
    rw [Nat.zero_add, Nat.add_zero]
    cases h : genRange seed d sp start b with
    | none => simp [genRange, h]
    | some ys => simp [genRange, h]
  | succ a ih =>
    intro start
    have e : a + 1 + b = (a + b) + 1 := by omega
    rw [e, genRange, ih (start + 1), genRange]
    have e2 : start + 1 + a = start + (a + 1) := by omega
    rw [e2]
    cases h1 : generate_sparse_vec (per_vector_seed seed start) d sp <;>
      cases h2 : genRange seed d sp (start + 1) a <;>
        cases h3 : genRange seed d sp (start + (a + 1)) b <;> simp

theorem streamVecs_eq_genRange (seed d sp count bs : Nat) (start : Nat) :
    streamVecs seed d sp count bs start = genRange seed d sp start (count - start) := by
  have key : ∀ k start, count - start ≤ k →
      streamVecs seed d sp count bs start =
        genRange seed d sp start (count - start) := by
    intro k
    induction k with
    | zero =>
      intro start h0
      have hlt : ¬ start < count := by omega
      simp [streamVecs, hlt, show count - start = 0 by omega, genRange]
    | succ k ih =>
      intro start hk
      by_cases hlt : start < count
      · have he : start + 1 ≤ min (start + max bs 1) count := by
          have := Nat.le_max_right bs 1
          omega
        rw [streamVecs, dif_pos hlt]
        simp only
        rw [ih (min (start + max bs 1) count) (by omega)]
        have hsplit := genRange_add seed d sp
          (min (start + max bs 1) count - start)
          (count - min (start + max bs 1) count) start
        have e1 : (min (start + max bs 1) count - start) +
            (count - min (start + max bs 1) count) = count - start := by omega
        have e2 : start + (min (start + max bs 1) count - start) =
            min (start + max bs 1) count := by omega
        rw [e1, e2] at hsplit
        rw [hsplit]
      · simp [streamVecs, hlt, show count - start = 0 by omega, genRange]
  exact key (count - start) start le_rfl

/-! ## Claim C3: streaming/in-memory writer equivalence -/

/-- C3: for every `GenerateConfig` and every batch size,
`write_dataset_streaming` produces exactly the bytes that `write_dataset`
produces on `generate_dataset(config)` (both fail together when generation
panics). -/
theorem streaming_equivalence (config : GenerateConfig) (batch_size : Nat) :
    write_dataset_streaming config batch_size =
      (generate_dataset config).map (fun vs => write_dataset vs config) := by
  rw [write_dataset_streaming,
    streamVecs_eq_genRange config.seed config.dimension config.sparsity
      config.count batch_size 0, Nat.sub_zero]
  cases h : genRange config.seed config.dimension config.sparsity 0 config.count with
  | none => simp [generate_dataset, h]
  | some vs =>
    simp only [generate_dataset, h, Option.map_some']
    rw [write_dataset, genRange_length config.seed config.dimension config.sparsity
      config.count 0 vs h]

theorem genRange_get (seed d sp : Nat) :
    ∀ (n start : Nat) (vs : List SparseVec), genRange seed d sp start n = some vs →
      ∀ i < n, vs[i]? =
        generate_sparse_vec (per_vector_seed seed (start + i)) d sp := by
  intro n
  induction n with
  | zero => intro start vs h i hi; omega
  | succ n ih =>
    intro start vs h i hi
    rw [genRange] at h
    cases h1 : generate_sparse_vec (per_vector_seed seed start) d sp with
    | none => rw [h1] at h; exact absurd h (by simp)
    | some v =>
      cases h2 : genRange seed d sp (start + 1) n with
      | none => rw [h1, h2] at h; exact absurd h (by simp)
      | some rest =>
        rw [h1, h2] at h
        simp only [Option.some.injEq] at h
        subst h
        cases i with
        | zero => simpa using h1.symm
        | succ i =>
          have := ih (start + 1) rest h2 i (by omega)
          simpa [show start + 1 + i = start + (i + 1) by omega] using this

/-! ## Claim C1: deterministic, order-independent generation -/

/-- C1: vector generation is a pure function of
`(master_seed, index, dimension, sparsity)`: the per-vector seed is
`(master_seed + index) * K` under 64-bit wraparound arithmetic, the vector
at index `i` of `generate_dataset` is exactly
`generate_sparse_vec(per_vector_seed(seed, i), dimension, sparsity)`, and
the streaming writer's vector sequence coincides with `generate_dataset`
for every batch size. -/
theorem deterministic_generation (cfg : GenerateConfig) (i batch_size : Nat)
    (vs : List SparseVec) (hvs : generate_dataset cfg = some vs)
    (hi : i < cfg.count) :
    per_vector_seed cfg.seed i = (cfg.seed + i) * mixK % 2 ^ 64 ∧
    vs[i]? = generate_sparse_vec (per_vector_seed cfg.seed i)
      cfg.dimension cfg.sparsity ∧
    streamVecs cfg.seed cfg.dimension cfg.sparsity cfg.count batch_size 0 =
      some vs := by
  refine ⟨?_, ?_, ?_⟩
  · have hmod : (cfg.seed + i % 2 ^ 64) % 2 ^ 64 = (cfg.seed + i) % 2 ^ 64 := by
      omega
    rw [per_vector_seed, hmod, Nat.mod_mul_mod]
  · have := genRange_get cfg.seed cfg.dimension cfg.sparsity cfg.count 0 vs hvs i hi
    simpa using this
  · rw [streamVecs_eq_genRange, Nat.sub_zero]
    exact hvs

/-- Witness for C1 at `count = 2, dimension = 4, seed = 0, sparsity = 1`,
index 1, batch size 1. -/
theorem deterministic_generation_witness :
    per_vector_seed 0 1 = (0 + 1) * mixK % 2 ^ 64 ∧
    ([⟨[3], [1]⟩, ⟨[0], [3]⟩] : List SparseVec)[1]? =
      generate_sparse_vec (per_vector_seed 0 1) 4 1 ∧
    streamVecs 0 4 1 2 1 0 = some [⟨[3], [1]⟩, ⟨[0], [3]⟩] :=
  deterministic_generation ⟨2, 4, 0, 1⟩ 1 1 [⟨[3], [1]⟩, ⟨[0], [3]⟩]
    (by decide) (by decide)

theorem cons_eraseIdx_perm (l : List Nat) (i : Nat) (h : i < l.length) :
    (l[i] :: l.eraseIdx i).Perm l :=
  ((List.perm_cons_erase (List.getElem_mem h)).trans
    (List.Perm.cons _ (List.erase_getElem h))).symm

theorem shuffleGo_perm : ∀ (fuel rng : Nat) (l : List Nat), l.length = fuel →
    (shuffleGo fuel rng l).Perm l := by
  intro fuel
  induction fuel with
  | zero =>
    intro rng l hl
    rw [List.length_eq_zero] at hl
    subst hl
    exact List.Perm.refl _
  | succ fuel ih =>
    intro rng l hl
    have hpos : 0 < l.length := by omega
    rw [shuffleGo, dif_pos hpos]
    have hi : (rngStep rng).1 % l.length < l.length := Nat.mod_lt _ hpos
    have hlen : (l.eraseIdx ((rngStep rng).1 % l.length)).length = fuel := by
      have := List.length_eraseIdx_add_one hi
      omega
    exact ((ih (rngStep rng).2 _ hlen).cons _).trans
      (cons_eraseIdx_perm l _ hi)

theorem shuffle_perm (rng : Nat) (l : List Nat) : (shuffle rng l).Perm l :=
  shuffleGo_perm l.length rng l rfl

theorem shuffle_length (rng : Nat) (l : List Nat) :
    (shuffle rng l).length = l.length :=
  (shuffle_perm rng l).length_eq

theorem shuffle_range_nodup (rng d : Nat) :
    (shuffle rng (List.range d)).Nodup :=
  ((shuffle_perm rng (List.range d)).nodup_iff).mpr (List.nodup_range d)

theorem sortAsc_perm (l : List Nat) : (sortAsc l).Perm l :=
  List.perm_insertionSort _ l

theorem sortAsc_sorted (l : List Nat) : (sortAsc l).Sorted (· ≤ ·) :=
  List.sorted_insertionSort _ l

theorem genVec_some (rngSeed d sp : Nat) (h : sp * 2 ≤ d) :
    generate_sparse_vec rngSeed d sp =
      some ⟨sortAsc ((shuffle rngSeed (List.range d)).take sp),
        sortAsc (((shuffle rngSeed (List.range d)).drop sp).take sp)⟩ := by
  have hlen : (shuffle rngSeed (List.range d)).length = d := by
    rw [shuffle_length, List.length_range]
  rw [generate_sparse_vec]
  simp only [sliceOpt, hlen]
  rw [if_pos ⟨Nat.zero_le sp, by omega⟩, if_pos ⟨by omega, by omega⟩]
  simp [show sp * 2 - sp = sp by omega]

theorem genVec_none (rngSeed d sp : Nat) (h : d < sp * 2) :
    generate_sparse_vec rngSeed d sp = none := by
  have hlen : (shuffle rngSeed (List.range d)).length = d := by
    rw [shuffle_length, List.length_range]
  rw [generate_sparse_vec]
  simp only [sliceOpt, hlen]
  by_cases h1 : sp ≤ d
  · rw [if_pos ⟨Nat.zero_le sp, by omega⟩, if_neg (by omega)]
  · rw [if_neg (by omega)]

/-! ## Claim C7: generator precondition safety -/

/-- C7: when `2 * sparsity ≤ dimension`, `generate_sparse_vec` is total and
returns exactly `sparsity` pos indices and `sparsity` neg indices; when
`sparsity * 2 > dimension`, it fails with a panic-class failure (modelled as
`none`) rather than a truncated vector or a recoverable error. -/
theorem generator_precondition (rngSeed dimension sparsity : Nat) :
    (sparsity * 2 ≤ dimension →
      ∃ v, generate_sparse_vec rngSeed dimension sparsity = some v ∧
        v.pos.length = sparsity ∧ v.neg.length = sparsity) ∧
    (dimension < sparsity * 2 →
      generate_sparse_vec rngSeed dimension sparsity = none) := by
  constructor
  · intro h
    have hlen : (shuffle rngSeed (List.range dimension)).length = dimension := by
      rw [shuffle_length, List.length_range]
    refine ⟨_, genVec_some rngSeed dimension sparsity h, ?_, ?_⟩
    · rw [(sortAsc_perm _).length_eq, List.length_take, hlen]
      omega
    · rw [(sortAsc_perm _).length_eq, List.length_take, List.length_drop, hlen]
      omega
  · exact genVec_none rngSeed dimension sparsity

/-- Witness for C7: at `dimension = 4`, `sparsity = 2` generation succeeds
with two indices per sign; at `sparsity = 3` it panics. -/
theorem generator_precondition_witness :
    (∃ v, generate_sparse_vec 0 4 2 = some v ∧
      v.pos.length = 2 ∧ v.neg.length = 2) ∧
    generate_sparse_vec 0 4 3 = none :=
  ⟨(generator_precondition 0 4 2).1 (by decide),
   (generator_precondition 0 4 3).2 (by decide)⟩

theorem genVec_invariant (rngSeed d sp : Nat) (v : SparseVec)
    (h : generate_sparse_vec rngSeed d sp = some v) : vecInvariant v := by
  by_cases hle : sp * 2 ≤ d
  · rw [genVec_some rngSeed d sp hle] at h
    injection h with h
    subst h
    have hnd : (shuffle rngSeed (List.range d)).Nodup := shuffle_range_nodup rngSeed d
    have hnd1 : ((shuffle rngSeed (List.range d)).take sp).Nodup :=
      hnd.sublist (List.take_sublist sp _)
    have hnd2 : (((shuffle rngSeed (List.range d)).drop sp).take sp).Nodup :=
      (hnd.sublist (List.drop_sublist sp _)).sublist (List.take_sublist sp _)
    have hdisj : ((shuffle rngSeed (List.range d)).take sp).Disjoint
        ((shuffle rngSeed (List.range d)).drop sp) := by
      have hsplit := List.take_append_drop sp (shuffle rngSeed (List.range d))
      rw [← hsplit] at hnd
      exact (List.nodup_append.mp hnd).2.2
    refine ⟨?_, ?_, ?_⟩
    · exact (sortAsc_sorted _).lt_of_le (((sortAsc_perm _).nodup_iff).mpr hnd1)
    · exact (sortAsc_sorted _).lt_of_le (((sortAsc_perm _).nodup_iff).mpr hnd2)
    · intro x hx hx2
      have hx' : x ∈ (shuffle rngSeed (List.range d)).take sp :=
        ((sortAsc_perm _).mem_iff).mp hx
      have hx2' : x ∈ (shuffle rngSeed (List.range d)).drop sp :=
        (List.take_sublist sp _).mem (((sortAsc_perm _).mem_iff).mp hx2)
      exact hdisj hx' hx2'
  · rw [genVec_none rngSeed d sp (by omega)] at h
    exact absurd h (by simp)

/-! ## Claim C4: sortedness/disjointness invariant -/

/-- C4 counterexample: the readers do not validate sortedness, so a file
whose record stores `pos = [1, 0]` decodes to a vector violating the
invariant: the claim is false for arbitrary decoded vectors. -/
theorem sortedness_counterexample :
    ¬ ∀ (bytes : List Nat) (m : DatasetMeta) (vs : List SparseVec),
        load_dataset bytes = .ok (m, vs) → ∀ v ∈ vs, vecInvariant v := by
  intro h
  have h2 := h (write_header 1 4 0 ++ (le32 2 ++ (le32 1 ++ (le32 0 ++ le32 0))))
    ⟨1, 4, 0⟩ [⟨[1, 0], []⟩] (by rfl) ⟨[1, 0], []⟩ (by simp)
  exact absurd h2 (by decide)

/-- C4 (amended): every vector produced by the generator is strictly
ascending in `pos` and `neg` with `pos` and `neg` disjoint; and every
vector decoded by the readers — whole-file `load_dataset` or sequential
`DatasetReader::next_vector` reads — *from a file written by
`write_dataset` from vectors satisfying the invariant* (with `u32`-range
lengths/indices and a `u64`-range count) satisfies the invariant as well.
Arbitrary files are not validated (see the counterexample). -/
theorem sortedness_invariant :
    (∀ (rngSeed d sp : Nat) (v : SparseVec),
      generate_sparse_vec rngSeed d sp = some v → vecInvariant v) ∧
    (∀ (vs : List SparseVec) (cfg : GenerateConfig) (m : DatasetMeta)
        (out : List SparseVec),
      (∀ v ∈ vs, vecInvariant v) → (∀ v ∈ vs, vecInRange v) →
      vs.length < 2 ^ 64 →
      load_dataset (write_dataset vs cfg) = .ok (m, out) →
      ∀ v ∈ out, vecInvariant v) ∧
    (∀ (vs : List SparseVec) (cfg : GenerateConfig) (r r1 : DatasetReader)
        (out : List SparseVec),
      (∀ v ∈ vs, vecInvariant v) → (∀ v ∈ vs, vecInRange v) →
      vs.length < 2 ^ 64 →
      DatasetReader.open (write_dataset vs cfg) = .ok r →
      readAll r = .ok (out, r1) →
      ∀ v ∈ out, vecInvariant v) := by
  refine ⟨genVec_invariant, ?_, ?_⟩
  · intro vs cfg m out hinv hr hc hload
    rw [load_write_roundtrip vs cfg hr hc] at hload
    injection hload with hload
    injection hload with h1 h2
    subst h2
    exact hinv
  · intro vs cfg r r1 out hinv hr hc hopen hread
    have ho := open_write vs cfg
    rw [Nat.mod_eq_of_lt hc, hopen] at ho
    injection ho with ho
    rw [ho] at hread
    obtain ⟨r2, hra⟩ := readAll_write vs cfg hr
    rw [hra] at hread
    injection hread with hread
    injection hread with h1 h2
    rw [← h1]
    exact hinv

/-- Witness for C4 at a concrete generated vector, a concrete
written-then-loaded dataset, and a concrete sequentially-read dataset. -/
theorem sortedness_invariant_witness :
    vecInvariant ⟨[3], [1]⟩ ∧
    (∀ v ∈ ([⟨[0, 2], [1]⟩] : List SparseVec), vecInvariant v) ∧
    (∀ v ∈ ([⟨[1, 3], [0, 2]⟩] : List SparseVec), vecInvariant v) :=
  ⟨sortedness_invariant.1 0 4 1 ⟨[3], [1]⟩ (by decide),
   sortedness_invariant.2.1 [⟨[0, 2], [1]⟩] ⟨1, 4, 0, 1⟩ ⟨1, 4, 0⟩ [⟨[0, 2], [1]⟩]
     (by decide) (by decide) (by decide) (by rfl),
   sortedness_invariant.2.2 [⟨[1, 3], [0, 2]⟩] ⟨1, 4, 0, 1⟩
     ⟨⟨1, 4, 0⟩, write_dataset [⟨[1, 3], [0, 2]⟩] ⟨1, 4, 0, 1⟩, HEADER_SIZE, 0⟩
     ⟨⟨1, 4, 0⟩, write_dataset [⟨[1, 3], [0, 2]⟩] ⟨1, 4, 0, 1⟩, 92, 1⟩
     [⟨[1, 3], [0, 2]⟩]
     (by decide) (by decide) (by decide) (by rfl) (by rfl)⟩

theorem open_facts (bytes : List Nat) (r : DatasetReader)
    (h : DatasetReader.open bytes = .ok r) :
    r = ⟨r.meta, bytes, HEADER_SIZE, 0⟩ := by
  rw [DatasetReader.open] at h
  cases hh : readHeader bytes with
  | error e => rw [hh] at h; exact absurd h (by simp)
  | ok p =>
    obtain ⟨m, rest⟩ := p
    rw [hh] at h
    simp only [Except.ok.injEq] at h
    rw [← h]

theorem next_preserves (r3 r4 : DatasetReader) (ov : Option SparseVec)
    (h : r3.next_vector = .ok (ov, r4)) :
    r4.meta = r3.meta ∧ r4.stream = r3.stream := by
  rw [DatasetReader.next_vector] at h
  by_cases hc : r3.current_index ≥ r3.meta.count
  · rw [if_pos hc] at h
    simp only [Except.ok.injEq, Prod.mk.injEq] at h
    rw [← h.2]
    exact ⟨rfl, rfl⟩
  · rw [if_neg hc] at h
    cases hv : readVec (r3.stream.drop r3.offset) with
    | error e => rw [hv] at h; exact absurd h (by simp)
    | ok p =>
      obtain ⟨v, rest⟩ := p
      rw [hv] at h
      simp only [Except.ok.injEq, Prod.mk.injEq] at h
      rw [← h.2]
      exact ⟨rfl, rfl⟩

theorem readAllGo_length : ∀ (fuel : Nat) (r : DatasetReader)
    (vs : List SparseVec) (r1 : DatasetReader),
    readAllGo fuel r = .ok (vs, r1) →
    r.meta.count - r.current_index = fuel → vs.length = fuel := by
  intro fuel
  induction fuel with
  | zero =>
    intro r vs r1 h hf
    rw [readAllGo] at h
    simp only [Except.ok.injEq, Prod.mk.injEq] at h
    rw [← h.1]
    rfl
  | succ fuel ih =>
    intro r vs r1 h hf
    rw [readAllGo, DatasetReader.next_vector, if_neg (by omega)] at h
    cases hv : readVec (r.stream.drop r.offset) with
    | error e => rw [hv] at h; exact absurd h (by simp)
    | ok p =>
      obtain ⟨v, rest⟩ := p
      rw [hv] at h
      simp only at h
      cases hg : readAllGo fuel
          ⟨r.meta, r.stream, r.stream.length - rest.length,
            r.current_index + 1⟩ with
      | error e => rw [hg] at h; exact absurd h (by simp)
      | ok q =>
        obtain ⟨vs2, r2⟩ := q
        rw [hg] at h
        simp only [Except.ok.injEq, Prod.mk.injEq] at h
        have hl := ih _ vs2 r2 hg (by simp only; omega)
        rw [← h.1, List.length_cons, hl]

/-! ## Claim C8: reset restartability -/

/-- C8: for every dataset file and reader opened on it whose first full
pass succeeds, `reset()` returns the cursor to the first record (offset
`HEADER_SIZE`, index 0) — indeed to exactly the freshly-opened reader
state — so every subsequent full pass (from any reader state over the same
file, e.g. after any number of prior passes, since `next_vector` never
changes the file or header) yields exactly the same `count` vectors in the
same order. -/
theorem reset_restartability (bytes : List Nat) (r : DatasetReader)
    (hopen : DatasetReader.open bytes = .ok r)
    (vs : List SparseVec) (r1 : DatasetReader)
    (hpass : readAll r = .ok (vs, r1)) :
    vs.length = r.meta.count ∧
    (∀ r2 : DatasetReader, r2.meta = r.meta → r2.stream = r.stream →
      r2.reset.offset = HEADER_SIZE ∧ r2.reset.current_index = 0 ∧
      r2.reset = r ∧ readAll r2.reset = .ok (vs, r1)) ∧
    (∀ (r3 r4 : DatasetReader) (ov : Option SparseVec),
      r3.next_vector = .ok (ov, r4) →
      r4.meta = r3.meta ∧ r4.stream = r3.stream) := by
  have req := open_facts bytes r hopen
  have hidx : r.current_index = 0 := by rw [req]
  refine ⟨?_, ?_, next_preserves⟩
  · have := readAllGo_length (r.meta.count - r.current_index) r vs r1 hpass rfl
    omega
  · intro r2 hm hs
    have hreset : r2.reset = r := by
      rw [DatasetReader.reset, hm, hs]
      conv_rhs => rw [req]
      have : r.stream = bytes := by conv_lhs => rw [req]
      rw [this]
    exact ⟨by rw [hreset, req], by rw [hreset, req], hreset, by rw [hreset]; exact hpass⟩

/-- Witness for C8: one vector written to a file, opened, fully read,
then restarted. -/
theorem reset_restartability_witness :
    ([⟨[0], [1]⟩] : List SparseVec).length =
      (⟨⟨1, 4, 0⟩, write_dataset [⟨[0], [1]⟩] ⟨1, 4, 0, 1⟩, HEADER_SIZE, 0⟩ :
        DatasetReader).meta.count ∧
    (∀ r2 : DatasetReader,
      r2.meta = (⟨⟨1, 4, 0⟩, write_dataset [⟨[0], [1]⟩] ⟨1, 4, 0, 1⟩,
        HEADER_SIZE, 0⟩ : DatasetReader).meta →
      r2.stream = (⟨⟨1, 4, 0⟩, write_dataset [⟨[0], [1]⟩] ⟨1, 4, 0, 1⟩,
        HEADER_SIZE, 0⟩ : DatasetReader).stream →
      r2.reset.offset = HEADER_SIZE ∧ r2.reset.current_index = 0 ∧
      r2.reset = ⟨⟨1, 4, 0⟩, write_dataset [⟨[0], [1]⟩] ⟨1, 4, 0, 1⟩,
        HEADER_SIZE, 0⟩ ∧
      readAll r2.reset = .ok ([⟨[0], [1]⟩],
        ⟨⟨1, 4, 0⟩, write_dataset [⟨[0], [1]⟩] ⟨1, 4, 0, 1⟩, 84, 1⟩)) ∧
    (∀ (r3 r4 : DatasetReader) (ov : Option SparseVec),
      r3.next_vector = .ok (ov, r4) →
      r4.meta = r3.meta ∧ r4.stream = r3.stream) :=
  reset_restartability (write_dataset [⟨[0], [1]⟩] ⟨1, 4, 0, 1⟩)
    ⟨⟨1, 4, 0⟩, write_dataset [⟨[0], [1]⟩] ⟨1, 4, 0, 1⟩, HEADER_SIZE, 0⟩
    (by rfl) [⟨[0], [1]⟩]
    ⟨⟨1, 4, 0⟩, write_dataset [⟨[0], [1]⟩] ⟨1, 4, 0, 1⟩, 84, 1⟩ (by rfl)

theorem totalRecallHits_le (qr : List (Finset Nat × Finset Nat)) (k : Nat)
    (hcard : ∀ p ∈ qr, p.2.card ≤ k) :
    totalRecallHits qr ≤ qr.length * k := by
  induction qr with
  | nil => simp [totalRecallHits]
  | cons p qr ih =>
    have h1 : recallHits p.1 p.2 ≤ k :=
      le_trans (Finset.card_le_card Finset.inter_subset_right) (hcard p (by simp))
    have h2 := ih fun q hq => hcard q (by simp [hq])
    simp only [totalRecallHits, List.map_cons, List.sum_cons, List.length_cons] at *
    have h3 : (qr.length + 1) * k = qr.length * k + k := by ring
    omega

theorem totalRecallHits_eq (qr : List (Finset Nat × Finset Nat)) (k : Nat)
    (heq : ∀ p ∈ qr, p.1 = p.2 ∧ p.2.card = k) :
    totalRecallHits qr = qr.length * k := by
  induction qr with
  | nil => simp [totalRecallHits]
  | cons p qr ih =>
    have h1 : recallHits p.1 p.2 = k := by
      rw [recallHits, (heq p (by simp)).1, Finset.inter_self]
      exact (heq p (by simp)).2
    have h2 := ih fun q hq => heq q (by simp [hq])
    simp only [totalRecallHits, List.map_cons, List.sum_cons, List.length_cons] at *
    rw [h1, h2]
    ring

/-! ## Claim C9: recall bound -/

/-- C9: aggregate recall@k — the sum over queries of
`|approx_ids ∩ exact_ids|` divided by `Q·k`, where each `exact_ids` has at
most `k` elements — always lies in `[0, 1]`; and when the approximate ids
equal the exact top-k ids (of full size `k`) for every query, the recall
is exactly 1. -/
theorem recall_bound (qr : List (Finset Nat × Finset Nat)) (k : Nat)
    (hk : 0 < k) (hq : qr ≠ [])
    (hcard : ∀ p ∈ qr, p.2.card ≤ k) :
    (0 ≤ recall_at_k qr k ∧ recall_at_k qr k ≤ 1) ∧
    ((∀ p ∈ qr, p.1 = p.2 ∧ p.2.card = k) → recall_at_k qr k = 1) := by
  have hQ : 0 < qr.length := List.length_pos.mpr hq
  have hden : (0 : ℚ) < ((qr.length * k : Nat) : ℚ) := by
    have : 0 < qr.length * k := Nat.mul_pos hQ hk
    exact_mod_cast this
  refine ⟨⟨?_, ?_⟩, ?_⟩
  · exact div_nonneg (Nat.cast_nonneg _) (le_of_lt hden)
  · rw [recall_at_k]
    exact (div_le_one hden).mpr (Nat.cast_le.mpr (totalRecallHits_le qr k hcard))
  · intro heq
    rw [recall_at_k, totalRecallHits_eq qr k heq]
    exact div_self (ne_of_gt hden)

/-- Witness for C9 at one query whose approximate ids equal its exact
top-2 ids. -/
theorem recall_bound_witness :
    (0 ≤ recall_at_k [({0, 1}, {0, 1})] 2 ∧ recall_at_k [({0, 1}, {0, 1})] 2 ≤ 1) ∧
    ((∀ p ∈ [(({0, 1} : Finset Nat), ({0, 1} : Finset Nat))],
        p.1 = p.2 ∧ p.2.card = 2) →
      recall_at_k [({0, 1}, {0, 1})] 2 = 1) :=
  recall_bound [({0, 1}, {0, 1})] 2 (by decide) (by decide) (by decide)
